import Mathlib

/-!
# Verification of the musicdl download core

Shallow embedding of the pure logic of the two source files
`musicdl/modules/sources/base.py` (class BaseMusicClient) and
`musicdl/modules/sources/tidal.py` (class TIDALMusicClient), together with
proofs settling the frozen claims about the natural-language specification.

Conventions used throughout:
* Python strings are Lean `String`s; the Python membership test `pat in s`
  is `strContains s pat`, `s.lower()` is `lowerStr s`, and so on.  The
  helpers work on the underlying character lists so that every definition
  evaluates inside the kernel.
* Python `None` is `Option.none`; a Python function that can raise is a
  Lean function into `Except String _` (the message standing for the
  exception), and a caller-side try/except is a `match` on that value.
* Network and filesystem effects are passed in explicitly as environment
  records (response status codes, probe outcomes, the set of existing file
  names, backend availability), so every definition stays executable.

The file is organised as definitions first, theorems second.
-/

namespace Musicdl

/-- Scan for the first position (counted from `i`) at which `pat` is a
prefix of the remaining character list. -/
def findSubAux (pat : List Char) : List Char → Nat → Option Nat
  | [], i => if pat.isEmpty then some i else none
  | c :: rest, i =>
    if pat.isPrefixOf (c :: rest) then some i else findSubAux pat rest (i + 1)

/-- Python `s.find(pat)` when the pattern occurs (character index of the
first occurrence), `none` when it does not (Python returns `-1` there). -/
def strFindIdx (s pat : String) : Option Nat :=
  findSubAux pat.data s.data 0

/-- Python `pat in s` (substring containment). -/
def strContains (s pat : String) : Bool :=
  (strFindIdx s pat).isSome

/-- Python `s.lower()` (character-wise). -/
def lowerStr (s : String) : String :=
  ⟨s.data.map Char.toLower⟩

/-- Python `s.upper()` (character-wise). -/
def upperStr (s : String) : String :=
  ⟨s.data.map Char.toUpper⟩

/-- Python `s.strip()`: remove whitespace from both ends. -/
def trimStr (s : String) : String :=
  ⟨((s.data.dropWhile Char.isWhitespace).reverse.dropWhile Char.isWhitespace).reverse⟩

/-- Python `s[:n]` (character slice from the start). -/
def takeStr (s : String) (n : Nat) : String :=
  ⟨s.data.take n⟩

/-- Python `s.startswith(pat)`. -/
def startsWithStr (s pat : String) : Bool :=
  pat.data.isPrefixOf s.data

/-- Python `s.endswith(pat)`. -/
def endsWithStr (s pat : String) : Bool :=
  pat.data.reverse.isPrefixOf s.data.reverse

/-- Python `s.strip(chars)`: remove the given characters from both ends. -/
def stripChars (s : String) (cs : List Char) : String :=
  ⟨((s.data.dropWhile (· ∈ cs)).reverse.dropWhile (· ∈ cs)).reverse⟩

namespace BaseMusicClient

/-- The slice of a `song_info` record that `BaseMusicClient._removeduplicates`
looks at: the provider-unique `identifier` key, plus the rest of the record
(represented by its display name) so that record-level, not just key-level,
behaviour is visible. -/
structure SongInfo where
  identifier : Nat
  song_name : String
deriving DecidableEq, Repr

/-- The loop of `BaseMusicClient._removeduplicates` (base.py:381-388):
walk the input once, carrying the set of identifiers already seen and the
accumulated output list (accumulated in reverse, as the Python `append`
builds it front to back). -/
def removeduplicatesAux : List SongInfo → List Nat → List SongInfo → List SongInfo
  | [], _, acc => acc.reverse
  | s :: rest, identifiers, acc =>
    if s.identifier ∈ identifiers then removeduplicatesAux rest identifiers acc
    else removeduplicatesAux rest (s.identifier :: identifiers) (s :: acc)

/-- `BaseMusicClient._removeduplicates` (base.py:381-388). -/
def removeduplicates (song_infos : List SongInfo) : List SongInfo :=
  removeduplicatesAux song_infos [] []

/-- The non-accumulator form of the dedup loop, used to relate the
source's accumulator loop to the specification's description. -/
def removedupGo : List SongInfo → List Nat → List SongInfo
  | [], _ => []
  | s :: rest, identifiers =>
    if s.identifier ∈ identifiers then removedupGo rest identifiers
    else s :: removedupGo rest (s.identifier :: identifiers)

end BaseMusicClient

/-- The specification's description of deduplication, written from the
spec's words, independently of the source loop: keep the head (it is the
first occurrence of its identifier), discard every later record carrying
that identifier, recurse on what is left. -/
def firstOccurrenceSubseq : List BaseMusicClient.SongInfo → List BaseMusicClient.SongInfo
  | [] => []
  | s :: rest =>
    s :: firstOccurrenceSubseq (rest.filter (fun t => t.identifier ≠ s.identifier))
termination_by l => l.length
decreasing_by
  simp only [List.length_cons]
  exact Nat.lt_succ_of_le (List.length_filter_le _ _)

/-! ## The save-path suffix loop -/

/-- The candidate file name tried at loop iteration `i` of the
save-path loops (base.py:460-464, tidal.py:287-290): the plain
stem+extension first, then stem`_i`+extension.  The base client passes
the dot-prefixed extension separately; the TIDAL client's extension
already carries its dot — both reduce to this shape. -/
def saveCandidate (stem ext : String) (i : Nat) : String :=
  if i = 0 then stem ++ ext else stem ++ "_" ++ Nat.repr i ++ ext

/-- The while-loop of the save step: while the candidate name exists on
disk, move to the next numeric suffix.  The Python loop is unbounded;
here it carries fuel, and `findFreeSavePath` passes enough fuel
(`existing.length + 1`) that the fuel can never run out
(`exists_free_candidate`). -/
def findFreeSavePathAux (existing : List String) (stem ext : String) :
    Nat → Nat → String
  | 0, i => saveCandidate stem ext i
  | fuel + 1, i =>
    if saveCandidate stem ext i ∈ existing then
      findFreeSavePathAux existing stem ext fuel (i + 1)
    else saveCandidate stem ext i

/-- The save-path computation shared by `BaseMusicClient._download`
(base.py:460-464) and `TIDALMusicClient._download` (tidal.py:287-290):
`existing` is the set of file names already present in the work directory. -/
def findFreeSavePath (existing : List String) (stem ext : String) : String :=
  findFreeSavePathAux existing stem ext (existing.length + 1) 0

/-! ## Per-item download workers -/

/-- Terminal per-item progress state: the source stores it as the final
description of the item's rich-progress task (Success, or Error with the
caught exception's message). -/
inductive ItemProgress where
  | preparing
  | success
  | failed (reason : String)
deriving DecidableEq, Repr

namespace TIDALMusicClient

/-- The `StreamUrl` record filled in by `TIDALMusicClient._parsemanifest`
(fields as used by the embedded sources; the class itself lives in the
external `tidalutils` helper module). -/
structure StreamUrl where
  trackid : Nat := 0
  soundQuality : String := ""
  codec : Option String := none
  encryptionKey : String := ""
  url : Option String := none
  urls : List String := []
deriving DecidableEq, Repr

/-- The fixed extension list probed by `_guessstreamextension`
(tidal.py:211). -/
def knownStreamExts : List String :=
  [".flac", ".mp4", ".m4a", ".m4b", ".mp3", ".ogg", ".aac"]

/-- `TIDALMusicClient._guessstreamextension` (tidal.py:204-218): guess the
native download extension from the URL suffixes, else from the codec,
defaulting to ".m4a". -/
def guessstreamextension (su : StreamUrl) : String :=
  let candidates :=
    (match su.url with
     | some u => if u.data.isEmpty then [] else [u]
     | none => []) ++ su.urls
  let fromUrl := candidates.findSome? (fun c =>
    if c.data.isEmpty then none
    else
      let lowered := lowerStr (match strFindIdx c "?" with
        | some i => takeStr c i
        | none => c)
      knownStreamExts.find? (fun e => endsWithStr lowered e))
  match fromUrl with
  | some e => e
  | none =>
    let codec := lowerStr (su.codec.getD "")
    if strContains codec "flac" then ".flac"
    else if strContains codec "mp4" || strContains codec "m4a" || strContains codec "aac" then
      ".m4a"
    else ".m4a"

/-- `TIDALMusicClient._primarystreamurl` (tidal.py:332-346): the first
non-empty URL of the descriptor, trying the single `url` field and then
the `urls` list. -/
def primarystreamurl (su : StreamUrl) : Option String :=
  let candidates :=
    (match su.url with
     | some u => if u.data.isEmpty then [] else [u]
     | none => []) ++ su.urls.filter (fun c => !c.data.isEmpty)
  candidates.find? (fun c => !c.data.isEmpty)

/-- The codec normalization of `_parsemanifest`'s DASH branch
(tidal.py:185-186): uppercase the tag (a missing tag becomes the empty
string); a tag beginning with MP4A becomes the generic label AAC. -/
def normalizedashcodec (codec : Option String) : String :=
  let c := upperStr (codec.getD "")
  if startsWithStr c "MP4A" then "AAC" else c

/-- The decision of tidal.py:248-251: a remux is required only when the
target container extension is ".flac", the native download extension is
not already ".flac", and the stream codec names flac content. -/
def remuxRequiredFlag (song_ext download_ext : String) (codec : Option String) : Bool :=
  if song_ext ≠ ".flac" ∨ download_ext = ".flac" then false
  else strContains (lowerStr (codec.getD "")) "flac"

/-- Scratch file that receives the decrypted stream bytes
(tidal.py:267-269): `decrypted` plus the native extension. -/
def decryptedScratch (download_ext : String) : String :=
  if download_ext.data.isEmpty then "decrypted" else "decrypted" ++ download_ext

/-- Modelled from the spec: `remuxflacstream` lives in the external
`tidalutils` helper module, which is not among the embedded sources.
Per the spec it converts the container without re-encoding and never
hard-fails; the embedded caller (tidal.py:280-286) detects failure by
the returned path being the unchanged input path. -/
def remuxflacstream (works : Bool) (inputPath targetPath : String) : String :=
  if works then targetPath else inputPath

/-- The external effects reaching `TIDALMusicClient._download`:
the names already present in the work directory, the availability of the
two remux backends, whether the remux itself succeeds, and whether the
segment download tool reports success. -/
structure DownloadEnv where
  existingFiles : List String
  ffmpegReady : Bool
  pyavReady : Bool
  remuxWorks : Bool
  downloadOk : Bool
deriving DecidableEq, Repr

/-- The slice of a TIDAL `song_info` record read by `_download`. -/
structure TidalSongInfo where
  song_name : String
  ext : String
  download_url : StreamUrl
deriving DecidableEq, Repr

/-- What the download body produces on success: the chosen path in the
work directory, the extension recorded back into the song info, and the
scratch path whose bytes were moved into place (`decryptedScratch _` for
the pre-remux bytes, `"remux.flac"` for remuxed bytes). -/
structure SavedTrack where
  save_path : String
  final_ext : String
  content_path : String
deriving DecidableEq, Repr

/-- The fallible body of `TIDALMusicClient._download` (tidal.py:244-292),
the part of the method inside its `try`.  The `assert check` after
`tool.start` raises when the segment download fails; everything after it
is a pure computation over the environment. -/
def downloadBody (env : DownloadEnv) (song : TidalSongInfo) : Except String SavedTrack :=
  let stream := song.download_url
  let download_ext := guessstreamextension stream
  let final_ext := song.ext
  let remux_required := remuxRequiredFlag final_ext download_ext stream.codec
  let noBackend := remux_required && (!env.ffmpegReady && !env.pyavReady)
  let final_ext1 := if noBackend then download_ext else final_ext
  let remux_required1 := if noBackend then false else remux_required
  if !env.downloadOk then Except.error "assert check"
  else
    let decrypted_path := decryptedScratch download_ext
    let processed_path := remuxflacstream env.remuxWorks decrypted_path "remux.flac"
    let final_ext2 :=
      if remux_required1 then
        if processed_path ≠ decrypted_path then final_ext1 else download_ext
      else final_ext1
    let content_path :=
      if remux_required1 then
        if processed_path ≠ decrypted_path then processed_path else decrypted_path
      else decrypted_path
    let save_path := findFreeSavePath env.existingFiles song.song_name final_ext2
    Except.ok { save_path := save_path, final_ext := final_ext2, content_path := content_path }

/-- A successfully downloaded entry appended to the shared results list:
the copied song info extended with the save path and final extension. -/
structure DownloadedSong where
  song : TidalSongInfo
  save_path : String
  ext : String
deriving DecidableEq, Repr

/-- `TIDALMusicClient._download` (tidal.py:238-305): the body runs under
`try`; on success the extended copy of the song info is appended to the
shared list and the item's progress reads Success; on any exception the
shared list is untouched, the exception message is recorded in the item's
terminal progress description, and the worker still returns normally. -/
def download_worker (env : DownloadEnv) (song : TidalSongInfo)
    (downloaded_song_infos : List DownloadedSong) :
    List DownloadedSong × ItemProgress :=
  match downloadBody env song with
  | Except.ok saved =>
    (downloaded_song_infos ++
        [{ song := song, save_path := saved.save_path, ext := saved.final_ext }],
      ItemProgress.success)
  | Except.error err =>
    (downloaded_song_infos,
      ItemProgress.failed
        ("TIDALMusicClient.download >>> " ++ song.song_name ++ " (Error: " ++ err ++ ")"))

/-! ### The DASH manifest tree (tidal.py:76-147 and tidalutils models) -/

/-- One S element of a SegmentTimeline (tidal.py:94-98). -/
structure SegmentTimelineEntry where
  start_time : Option Int
  duration : Int
  repeat_count : Nat
deriving DecidableEq, Repr

/-- A SegmentTemplate element (tidal.py:87-99). -/
structure SegmentTemplate where
  media : Option String
  initialization : Option String
  start_number : Nat
  timescale : Nat
  presentation_time_offset : Int
  timeline : List SegmentTimelineEntry
deriving DecidableEq, Repr

/-- A SegmentList element (tidal.py:101-108). -/
structure SegmentList where
  initialization : Option String
  media_segments : List String
deriving DecidableEq, Repr

/-- A Representation element (tidal.py:110-119). -/
structure Representation where
  id : Option String
  bandwidth : Option String
  codec : Option String
  base_url : String
  segment_template : Option SegmentTemplate
  segment_list : Option SegmentList
deriving DecidableEq, Repr

/-- An AdaptationSet element (tidal.py:121-126). -/
structure AdaptationSet where
  content_type : Option String
  base_url : String
  representations : List Representation
deriving DecidableEq, Repr

/-- A Period element (tidal.py:128-133). -/
structure Period where
  base_url : String
  adaptation_sets : List AdaptationSet
deriving DecidableEq, Repr

/-- The root of the parsed DASH tree (tidal.py:142-147). -/
structure Manifest where
  base_url : String
  periods : List Period
deriving DecidableEq, Repr

/-- Modelled from the spec: base URLs compose by URL-join down the tree
and relative segment references resolve against the representation's
base URL.  The join itself (urllib.urljoin) is external to the embedded
sources; the model concatenates, which is exact for the empty and
directory-style bases exercised here. -/
def joinUrl (base rel : String) : String := base ++ rel

/-- DASH `$Number$` substitution into a media pattern (first
occurrence). -/
def substNumber (pat : String) (n : Nat) : String :=
  match strFindIdx pat "$Number$" with
  | some i => takeStr pat i ++ Nat.repr n ++ ⟨pat.data.drop (i + 8)⟩
  | none => pat

/-- The 1-based segment numbers of a template: `start_number` onwards,
one per timeline entry repetition, an entry with repeat count `r`
contributing `r + 1` segments. -/
def SegmentTemplate.segmentNumbers (t : SegmentTemplate) : List Nat :=
  (List.range ((t.timeline.map (fun e => e.repeat_count + 1)).sum)).map
    (fun k => t.start_number + k)

/-- Modelled from the spec: the `segments` property of a representation
(defined on the `Representation` model in the external `tidalutils`
module, read at tidal.py:155 and tidal.py:184-189).  For a SegmentList,
the initialization URL followed by the media URLs in document order; for
a SegmentTemplate, the expanded initialization pattern followed by the
numbered media-pattern expansions; otherwise no URLs. -/
def Representation.segments (r : Representation) : List String :=
  match r.segment_list with
  | some sl =>
    (match sl.initialization with
     | some i => [joinUrl r.base_url i]
     | none => []) ++ sl.media_segments.map (joinUrl r.base_url)
  | none =>
    match r.segment_template with
    | some t =>
      (match t.initialization with
       | some i => [joinUrl r.base_url i]
       | none => []) ++
      (match t.media with
       | some m => t.segmentNumbers.map (fun k => joinUrl r.base_url (substNumber m k))
       | none => [])
    | none => []

/-- Whether an adaptation set is the audio one and has a representation
with a non-empty segment sequence — the acceptance condition scanned by
`_parsempd` (tidal.py:151-156). -/
def audioAdaptationHasSegments (a : AdaptationSet) : Bool :=
  a.content_type == some "audio" && a.representations.any (fun r => !r.segments.isEmpty)

/-- `TIDALMusicClient._parsempd` (tidal.py:149-156): return the manifest
as soon as some audio representation yields segments; fall through to
`None` otherwise. -/
def parsempd (m : Manifest) : Option Manifest :=
  if m.periods.any (fun p => p.adaptation_sets.any audioAdaptationHasSegments) then some m
  else none

/-- The flattened audio representations collected at tidal.py:178-182. -/
def audioReps (m : Manifest) : List Representation :=
  m.periods.flatMap (fun p =>
    (p.adaptation_sets.filter (fun a => a.content_type == some "audio")).flatMap
      (fun a => a.representations))

/-- The decoded JSON payload of an opaque-URL (vnd.tidal.bt) manifest:
field presence mirrors the keys the source reads at tidal.py:161-168
(`codecs`, `keyId`, `urls`), `none` standing for a missing key. -/
structure BtManifest where
  codecs : Option String
  keyId : Option String
  urls : Option (List String)
deriving DecidableEq, Repr

/-- A manifest payload after base64 decoding and deserialization: the
byte-level decoding is abstracted into the already-structured value
(`bt none` standing for bytes json decoding cannot make an object of). -/
inductive ManifestPayload where
  | bt (decoded : Option BtManifest)
  | dash (tree : Manifest)
  | unrecognized
deriving DecidableEq, Repr

/-- The playback-info response fields read by `_parsemanifest`
(tidal.py:158-192). -/
structure StreamRespond where
  trackid : Nat
  audioQuality : String
  manifestMimeType : String
  manifest : ManifestPayload
deriving DecidableEq, Repr

/-- `TIDALMusicClient._parsemanifest` (tidal.py:158-192).  The result is
`Except.error` when the method raises (missing required JSON fields or
an undecodable payload), `Except.ok none` when it returns `None`
(unrecognized mime type, or a DASH document without playable audio), and
`Except.ok (some su)` for a resolved descriptor. -/
def parsemanifest (sr : StreamRespond) : Except String (Option StreamUrl) :=
  if strContains sr.manifestMimeType "vnd.tidal.bt" then
    match sr.manifest with
    | ManifestPayload.bt none => Except.error "manifest payload is not a JSON object"
    | ManifestPayload.bt (some m) =>
      match m.codecs with
      | none => Except.error "KeyError: codecs"
      | some codecs =>
        match m.urls with
        | none => Except.error "KeyError: urls"
        | some [] => Except.error "IndexError: urls is empty"
        | some (u :: _) =>
          Except.ok (some
            { trackid := sr.trackid, soundQuality := sr.audioQuality,
              codec := some codecs, encryptionKey := m.keyId.getD "",
              url := some u, urls := [u] })
    | _ => Except.error "manifest payload does not decode as JSON"
  else if strContains sr.manifestMimeType "dash+xml" then
    match sr.manifest with
    | ManifestPayload.dash tree =>
      match parsempd tree with
      | none => Except.ok none
      | some manifest =>
        match audioReps manifest with
        | [] => Except.ok none
        | r0 :: rest =>
          let representation :=
            ((r0 :: rest).find? (fun r => !r.segments.isEmpty)).getD r0
          let urls := representation.segments
          Except.ok (some
            { trackid := sr.trackid, soundQuality := sr.audioQuality,
              codec := some (normalizedashcodec representation.codec), encryptionKey := "",
              url := urls.head?, urls := urls })
    | _ => Except.error "manifest payload does not parse as DASH XML"
  else Except.ok none

/-! ### Quality negotiation (tidal.py:363-393) -/

/-- The per-tier outcome of the playback-info request at one quality:
whether `isvalidresp` accepted the response, the declared manifest mime
type, the result of `_parsemanifest` (`none` when it returned `None` or
raised — the call sits in a try/except at tidal.py:381-384), and the
`ok` flag reported by the `AudioLinkTester` reachability probe of the
primary URL. -/
structure TierOutcome where
  valid : Bool
  mimeType : String
  parsed : Option StreamUrl
  probeOk : Bool
deriving DecidableEq, Repr

/-- The fixed quality ladder of `_getstreamfortrack` (tidal.py:365-370). -/
def qualities : List (String × String) :=
  [("hi_res_lossless", "HI_RES_LOSSLESS"), ("high_lossless", "LOSSLESS"),
   ("low_320k", "HIGH"), ("low_96k", "LOW")]

/-- The outcome of `_getstreamfortrack`: the accepted descriptor (if
any) with the negotiation verdict, plus the number of playback-info
requests made (the source makes exactly one per tier examined). -/
structure StreamResolution where
  stream : Option StreamUrl
  ok : Bool
  reason : String
  requests : Nat
deriving DecidableEq, Repr

/-- The tier loop of `TIDALMusicClient._getstreamfortrack`
(tidal.py:372-393), driven by an environment mapping each audio-quality
name to its tier outcome; `n` counts the playback-info requests made so
far.  A tier is skipped when its response is invalid, its mime type is
neither recognized format, its manifest does not parse, or no primary
URL exists; an accepted tier returns immediately. -/
def getstreamfortrackAux (env : String → TierOutcome) :
    List (String × String) → Nat → StreamResolution
  | [], n =>
    { stream := none, ok := false, reason := "No playable stream found", requests := n }
  | (_, quality) :: rest, n =>
    let t := env quality
    if !t.valid then getstreamfortrackAux env rest (n + 1)
    else if !(strContains t.mimeType "vnd.tidal.bt") && !(strContains t.mimeType "dash+xml") then
      getstreamfortrackAux env rest (n + 1)
    else
      match t.parsed with
      | none => getstreamfortrackAux env rest (n + 1)
      | some su =>
        match primarystreamurl su with
        | none => getstreamfortrackAux env rest (n + 1)
        | some _ =>
          if t.probeOk then
            { stream := some su, ok := true, reason := "", requests := n + 1 }
          else getstreamfortrackAux env rest (n + 1)

/-- `TIDALMusicClient._getstreamfortrack` (tidal.py:364-393). -/
def getstreamfortrack (env : String → TierOutcome) : StreamResolution :=
  getstreamfortrackAux env qualities 0

end TIDALMusicClient

namespace BaseMusicClient

/-- The external effects reaching `BaseMusicClient._download`: the
response produced by `self.get` (`none` when every retry raised, so the
Python call returned `None` and entering the `with` block raises), and
the names already present in the work directory. -/
structure DownloadEnv where
  respStatus : Option Nat
  existingFiles : List String
deriving DecidableEq, Repr

/-- The slice of a `song_info` record read by `BaseMusicClient._download`:
the display name, the bare (dot-less) extension, and the already
normalized track number (`_normalizetracknumber` output: positive or
absent). -/
structure BaseSongInfo where
  song_name : String
  ext : String
  track_number : Option Nat
deriving DecidableEq, Repr

/-- Python `f"{n:02d}"`. -/
def twoDigit (n : Nat) : String :=
  if n < 10 then "0" ++ Nat.repr n else Nat.repr n

/-- The file-name stem of base.py:450-459: optional zero-padded track
prefix, then the song name. -/
def trackFileBase (song : BaseSongInfo) : String :=
  (match song.track_number with
   | some n => twoDigit n ++ " - "
   | none => "") ++ song.song_name

/-- The fallible body of `BaseMusicClient._download` (base.py:445-482):
entering the response context raises when `get` returned `None`;
`raise_for_status` raises on a 4xx/5xx status; otherwise the body streams
the chunks into the save path chosen by the suffix loop and returns it. -/
def downloadBody (env : DownloadEnv) (song : BaseSongInfo) : Except String String :=
  match env.respStatus with
  | none => Except.error "response is None"
  | some status =>
    if 400 ≤ status then Except.error ("HTTPError: " ++ Nat.repr status)
    else Except.ok (findFreeSavePath env.existingFiles (trackFileBase song) ("." ++ song.ext))

/-- `BaseMusicClient._download` (base.py:440-485): same `try` wrapper
shape as the TIDAL worker; the shared list receives successful outputs
only, and the caught exception becomes the item's terminal progress
description. -/
def download_worker (env : DownloadEnv) (song : BaseSongInfo)
    (downloaded_song_infos : List (BaseSongInfo × String)) :
    List (BaseSongInfo × String) × ItemProgress :=
  match downloadBody env song with
  | Except.ok save_path =>
    (downloaded_song_infos ++ [(song, save_path)], ItemProgress.success)
  | Except.error err =>
    (downloaded_song_infos,
      ItemProgress.failed
        ("BaseMusicClient.download >>> " ++ song.song_name ++ " (Error: " ++ err ++ ")"))

/-! ## The retry loop of `BaseMusicClient.get` -/

/-- An HTTP response as seen by the retry loop: only the status code
matters to it. -/
structure HttpResp where
  status : Nat
deriving DecidableEq, Repr

/-- The loop of `BaseMusicClient.get` (base.py:522-545), driven by an
attempt oracle: `attempts i = none` when the i-th `self.session.get`
raises a transport exception (caught and logged by the source), `some r`
when a response arrives.  Each iteration also re-creates the session and
headers (when the session is not maintained) and rotates the proxy (when
proxy auto-setting is on) — I/O that the embedding does not model.  The
loop variable `resp` keeps the most recent response that arrived; a
status other than 200 `continue`s, a 200 response returns immediately,
and running out of retries returns `resp` as it stands.  The second
component counts the attempts made. -/
def getAux (attempts : Nat → Option HttpResp) :
    Nat → Nat → Option HttpResp → Option HttpResp × Nat
  | 0, i, resp => (resp, i)
  | fuel + 1, i, resp =>
    match attempts i with
    | none => getAux attempts fuel (i + 1) resp
    | some r =>
      if r.status ≠ 200 then getAux attempts fuel (i + 1) (some r) else (some r, i + 1)

/-- `BaseMusicClient.get` (base.py:522-545). -/
def get (max_retries : Nat) (attempts : Nat → Option HttpResp) :
    Option HttpResp × Nat :=
  getAux attempts max_retries 0 none

/-- The claim's retry criterion, written from the spec's words: a
non-2xx status or a transport exception is retry-eligible, so any 2xx
response is accepted and returned at once. -/
def getSpecAux (attempts : Nat → Option HttpResp) :
    Nat → Nat → Option HttpResp → Option HttpResp × Nat
  | 0, i, resp => (resp, i)
  | fuel + 1, i, resp =>
    match attempts i with
    | none => getSpecAux attempts fuel (i + 1) resp
    | some r =>
      if r.status < 200 ∨ 300 ≤ r.status then getSpecAux attempts fuel (i + 1) (some r)
      else (some r, i + 1)

/-- The claim's version of `get`, for comparison with the source's. -/
def getSpec (max_retries : Nat) (attempts : Nat → Option HttpResp) :
    Option HttpResp × Nat :=
  getSpecAux attempts max_retries 0 none

/-- An attempt outcome the source's loop retries past: a transport
exception, or a response whose status is not 200. -/
def retryEligible : Option HttpResp → Bool
  | none => true
  | some r => r.status != 200

/-- The most recent response delivered among attempts `0..k-1`
(`none` when every one of them raised). -/
def lastObtainedIn (attempts : Nat → Option HttpResp) (i0 : Nat) : Nat → Option HttpResp
  | 0 => none
  | k + 1 =>
    match attempts (i0 + k) with
    | some r => some r
    | none => lastObtainedIn attempts i0 k

/-- First-some choice between an optional response and a fallback. -/
def orO : Option HttpResp → Option HttpResp → Option HttpResp
  | some r, _ => some r
  | none, resp => resp

/-! ## Artist and album name resolution (base.py:64-161, 369-379) -/

mutual

/-- A heterogeneous Python value as probed by
`BaseMusicClient._extract_name_from_data` (base.py:64-98): `None`,
strings, mappings (`RawEntries`, an ordered key/value list), and
sequences (`RawValues`).  Objects probed through `getattr` (base.py:90-97)
are represented as mappings: the attribute branch reads the same keys as
the mapping branch's preferred-key list. -/
inductive RawValue where
  | nullv
  | str (s : String)
  | dict (entries : RawEntries)
  | arr (items : RawValues)

/-- The ordered key/value entries of a mapping. -/
inductive RawEntries where
  | nil
  | cons (key : String) (value : RawValue) (rest : RawEntries)

/-- The ordered items of a sequence. -/
inductive RawValues where
  | nil
  | cons (value : RawValue) (rest : RawValues)

end

/-- Python `mapping.get(key)`. -/
def lookupEntry (key : String) : RawEntries → Option RawValue
  | RawEntries.nil => none
  | RawEntries.cons k v rest => if k = key then some v else lookupEntry key rest

/-- The preferred keys probed first in the mapping branch (base.py:74). -/
def preferredNameKeys : List String :=
  ["album_artist", "artist", "artists", "name", "title", "singer", "singers"]

mutual

/-- `BaseMusicClient._extract_name_from_data` (base.py:64-98): a usable
name is a non-empty trimmed string other than NULL; a mapping is probed
through the preferred keys in order, then through any key whose
lowercase form ends in `name`, in entry order; a sequence yields its
first usable item. -/
def extract_name_from_data : RawValue → Option String
  | RawValue.nullv => none
  | RawValue.str s =>
    let cleaned := trimStr s
    if !cleaned.data.isEmpty && upperStr cleaned ≠ "NULL" then some cleaned else none
  | RawValue.dict entries =>
    match preferredNameKeys.findSome? (fun k => extractAtKey k entries) with
    | some c => some c
    | none => nameSuffixPass entries
  | RawValue.arr items => itemsPass items

/-- One step of the first mapping-branch loop (base.py:74-77):
`extract(mapping.get(key))` — `None` both when the key is missing and
when its value yields no name. -/
def extractAtKey (key : String) : RawEntries → Option String
  | RawEntries.nil => none
  | RawEntries.cons k v rest =>
    if k = key then extract_name_from_data v else extractAtKey key rest

/-- The second loop of the mapping branch (base.py:78-82): any key whose
lowercase form ends in `name`. -/
def nameSuffixPass : RawEntries → Option String
  | RawEntries.nil => none
  | RawEntries.cons k v rest =>
    if endsWithStr (lowerStr k) "name" then
      match extract_name_from_data v with
      | some c => some c
      | none => nameSuffixPass rest
    else nameSuffixPass rest

/-- The sequence branch (base.py:84-89): first item yielding a name. -/
def itemsPass : RawValues → Option String
  | RawValues.nil => none
  | RawValues.cons v rest =>
    match extract_name_from_data v with
    | some c => some c
    | none => itemsPass rest

end

/-- The feature tokens scanned by `_strip_featured_artist`
(base.py:103). -/
def featureTokens : List String :=
  [" feat.", " featuring", " ft.", " ft ", " with ", " x ", " × ", " presents ", " pres. "]

/-- `BaseMusicClient._strip_featured_artist` (base.py:100-113): cut the
name at the first feature token found (searching the lowercased name,
cutting the original at the same character index, token list order),
keep the part before the first list separator, then strip spaces, dashes
and ampersands from both ends. -/
def strip_featured_artist (name : String) : String :=
  let cleaned := trimStr name
  let cleaned := featureTokens.foldl
    (fun acc tok =>
      match strFindIdx (lowerStr acc) tok with
      | some idx => takeStr acc idx
      | none => acc) cleaned
  let cleaned :=
    match [",", "，", "、"].find? (fun sep => strContains cleaned sep) with
    | some sep =>
      match strFindIdx cleaned sep with
      | some idx => takeStr cleaned idx
      | none => cleaned
    | none => cleaned
  stripChars cleaned [' ', '-', '&']

/-- The shape of `raw_data['search_result']` as probed at
base.py:120-127 and base.py:149-152: absent, a mapping, or an arbitrary
object probed via `getattr` (a missing attribute reading as `None`). -/
inductive SearchResultData where
  | absent
  | dictData (entries : RawEntries)
  | objData (artist artists primaryArtist album : RawValue)

/-- The slice of a `song_info` record (including its `raw_data`) read by
`_resolve_artist_name` (base.py:114-141) and `_resolve_album_name`
(base.py:142-161); every absent key reads as `None`
(`RawValue.nullv`). -/
structure ArtistSongInfo where
  album_artist_resolved : RawValue := RawValue.nullv
  album_artist : RawValue := RawValue.nullv
  raw_album_artist : RawValue := RawValue.nullv
  search_result : SearchResultData := SearchResultData.absent
  singers : RawValue := RawValue.nullv
  artist : RawValue := RawValue.nullv
  artists : RawValue := RawValue.nullv
  singer : RawValue := RawValue.nullv
  album : RawValue := RawValue.nullv
  album_name : RawValue := RawValue.nullv
  albumTitle : RawValue := RawValue.nullv
  record : RawValue := RawValue.nullv
  download_result : Option RawEntries := none

/-- The ordered candidate list assembled by `_resolve_artist_name`
(base.py:119-132). -/
def artistCandidates (si : ArtistSongInfo) (keyword preferred_artist : String) :
    List RawValue :=
  [RawValue.str preferred_artist, si.album_artist_resolved, si.album_artist,
    si.raw_album_artist]
  ++ (match si.search_result with
      | SearchResultData.absent => []
      | SearchResultData.dictData entries =>
        [(lookupEntry "artists" entries).getD RawValue.nullv,
         (lookupEntry "artist" entries).getD RawValue.nullv,
         (lookupEntry "ar" entries).getD RawValue.nullv,
         (lookupEntry "singers" entries).getD RawValue.nullv,
         (lookupEntry "singer" entries).getD RawValue.nullv]
      | SearchResultData.objData a b c _ => [a, b, c])
  ++ [si.singers, si.artist, si.artists, si.singer]
  ++ (if keyword.data.isEmpty then [] else [RawValue.str keyword])

/-- Whether one candidate yields a usable artist name: its extracted
name survives feature stripping with something non-empty. -/
def usableArtist (c : RawValue) : Bool :=
  match extract_name_from_data c with
  | none => false
  | some name => !(trimStr (strip_featured_artist name)).data.isEmpty

/-- The candidate loop of `_resolve_artist_name` (base.py:133-141). -/
def resolveArtistLoop : List RawValue → String
  | [] => "Unknown Artist"
  | c :: rest =>
    match extract_name_from_data c with
    | none => resolveArtistLoop rest
    | some name =>
      let stripped := trimStr (strip_featured_artist name)
      if stripped.data.isEmpty then resolveArtistLoop rest else stripped

/-- `BaseMusicClient._resolve_artist_name` (base.py:114-141). -/
def resolve_artist_name (si : ArtistSongInfo) (keyword preferred_artist : String) :
    String :=
  resolveArtistLoop (artistCandidates si keyword preferred_artist)

/-- The ordered candidate list assembled by `_resolve_album_name`
(base.py:146-156). -/
def albumCandidates (si : ArtistSongInfo) (keyword : String) : List RawValue :=
  [si.album, si.album_name, si.albumTitle, si.record]
  ++ (match si.search_result with
      | SearchResultData.absent => []
      | SearchResultData.dictData entries =>
        [(lookupEntry "album" entries).getD RawValue.nullv,
         (lookupEntry "al" entries).getD RawValue.nullv,
         (lookupEntry "album_name" entries).getD RawValue.nullv]
      | SearchResultData.objData _ _ _ album => [album])
  ++ (match si.download_result with
      | some entries => [(lookupEntry "album" entries).getD RawValue.nullv]
      | none => [])
  ++ [RawValue.str keyword]

/-- The candidate loop of `_resolve_album_name` (base.py:157-161). -/
def resolveAlbumLoop : List RawValue → String
  | [] => "Unknown Album"
  | c :: rest =>
    match extract_name_from_data c with
    | some name => name
    | none => resolveAlbumLoop rest

/-- `BaseMusicClient._resolve_album_name` (base.py:142-161). -/
def resolve_album_name (si : ArtistSongInfo) (keyword : String) : String :=
  resolveAlbumLoop (albumCandidates si keyword)

/-- Modelled from the spec: `legalizestring` (work-directory naming and
sanitization, declared out of the spec's scope and defined outside the
embedded sources) legalizes a raw name for filesystem use, substituting
`replace_null_string` for a name that is null-like or sanitizes to
nothing. -/
def legalizestring (s : String) (replace_null_string : String) : String :=
  let cleaned := trimStr s
  if cleaned.data.isEmpty || upperStr cleaned = "NULL" then replace_null_string else cleaned

/-- The two path components appended below the work root by
`BaseMusicClient._constructuniqueworkdir` (base.py:369-379). -/
structure WorkDirParts where
  artistDir : String
  albumDir : String
deriving DecidableEq, Repr

/-- `BaseMusicClient._constructuniqueworkdir` (base.py:369-379): resolve
the artist and album names, legalize both, and join them under the work
root (the filesystem part, `os.path.join` + `touchdir`, is I/O). -/
def constructuniqueworkdir (si : ArtistSongInfo) (keyword album_artist : String) :
    WorkDirParts :=
  let artist_raw := resolve_artist_name si keyword album_artist
  let album_raw := resolve_album_name si keyword
  { artistDir := legalizestring artist_raw "Unknown Artist",
    albumDir := legalizestring album_raw "Unknown Album" }

end BaseMusicClient

/-! # Theorems -/

/-! ## C2: deduplication -/

theorem firstOccurrenceSubseq_nil : firstOccurrenceSubseq [] = [] := by
  rw [firstOccurrenceSubseq.eq_def]

theorem firstOccurrenceSubseq_cons (s : BaseMusicClient.SongInfo)
    (rest : List BaseMusicClient.SongInfo) :
    firstOccurrenceSubseq (s :: rest) =
      s :: firstOccurrenceSubseq (rest.filter (fun t => t.identifier ≠ s.identifier)) := by
  rw [firstOccurrenceSubseq.eq_def]

namespace BaseMusicClient

theorem removeduplicatesAux_eq_go (l : List SongInfo) :
    ∀ (seen : List Nat) (acc : List SongInfo),
    removeduplicatesAux l seen acc = acc.reverse ++ removedupGo l seen := by
  induction l with
  | nil => intro seen acc; simp [removeduplicatesAux, removedupGo]
  | cons s rest ih =>
    intro seen acc
    by_cases h : s.identifier ∈ seen
    · simp [removeduplicatesAux, removedupGo, h, ih]
    · simp [removeduplicatesAux, removedupGo, h, ih]

theorem removedupGo_eq_firstOccurrenceSubseq (l : List SongInfo) :
    ∀ seen : List Nat,
    removedupGo l seen = firstOccurrenceSubseq (l.filter (fun s => s.identifier ∉ seen)) := by
  induction l with
  | nil => intro seen; simp [removedupGo, firstOccurrenceSubseq_nil]
  | cons s rest ih =>
    intro seen
    by_cases h : s.identifier ∈ seen
    · simp only [removedupGo, if_pos h, List.filter_cons]
      have hd : (decide (s.identifier ∉ seen)) = false := by simp [h]
      simp [hd, ih]
    · simp only [removedupGo, if_neg h, List.filter_cons]
      have hd : (decide (s.identifier ∉ seen)) = true := by simp [h]
      simp only [hd, if_true]
      rw [firstOccurrenceSubseq_cons, ih (s.identifier :: seen), List.filter_filter]
      congr 1
      congr 1
      apply List.filter_congr
      intro t _
      by_cases ht : t.identifier = s.identifier <;> by_cases hs : t.identifier ∈ seen <;>
        simp [ht, hs]

theorem removedupGo_nodup_and_fresh (l : List SongInfo) :
    ∀ seen : List Nat,
    ((removedupGo l seen).map (·.identifier)).Nodup ∧
      ∀ s ∈ removedupGo l seen, s.identifier ∉ seen := by
  induction l with
  | nil => intro seen; simp [removedupGo]
  | cons s rest ih =>
    intro seen
    by_cases h : s.identifier ∈ seen
    · simpa [removedupGo, h] using ih seen
    · obtain ⟨ihn, ihf⟩ := ih (s.identifier :: seen)
      refine ⟨?_, ?_⟩
      · simp only [removedupGo, if_neg h, List.map_cons, List.nodup_cons]
        refine ⟨?_, ihn⟩
        intro hmem
        obtain ⟨t, ht, hts⟩ := List.exists_of_mem_map hmem
        exact (ihf t ht) (by simp [hts])
      · intro t ht
        simp only [removedupGo, if_neg h, List.mem_cons] at ht
        rcases ht with rfl | ht
        · exact h
        · intro hmem
          exact (ihf t ht) (List.mem_cons_of_mem _ hmem)

end BaseMusicClient

/-- C2. For every list of SongInfo records, `_removeduplicates` returns the
subsequence keeping only the first occurrence of each identifier in original
order (discarding every later record with an already-seen identifier), and
the identifiers of its output are pairwise distinct. -/
theorem c2_removeduplicates_first_occurrence
    (l : List BaseMusicClient.SongInfo) :
    BaseMusicClient.removeduplicates l = firstOccurrenceSubseq l ∧
      ((BaseMusicClient.removeduplicates l).map (·.identifier)).Nodup := by
  constructor
  · rw [BaseMusicClient.removeduplicates, BaseMusicClient.removeduplicatesAux_eq_go,
      BaseMusicClient.removedupGo_eq_firstOccurrenceSubseq]
    simp
  · rw [BaseMusicClient.removeduplicates, BaseMusicClient.removeduplicatesAux_eq_go]
    simpa using (BaseMusicClient.removedupGo_nodup_and_fresh l []).1

/-! ## Decimal numerals

The `_1`, `_2`, … file-name suffixes print a counter with `Nat.repr`.
The save-path loop terminates because distinct counters print to distinct
strings; this section proves that injectivity by relating the core
`Nat.toDigitsCore` loop to Mathlib's `Nat.digits`. -/

theorem toDigitsCore_succ (f n : Nat) (l : List Char) :
    Nat.toDigitsCore 10 (f + 1) n l =
      if n / 10 = 0 then Nat.digitChar (n % 10) :: l
      else Nat.toDigitsCore 10 f (n / 10) (Nat.digitChar (n % 10) :: l) := rfl

theorem toDigitsCore_eq_digits :
    ∀ (f n : Nat) (l : List Char), 0 < n → n < f →
      Nat.toDigitsCore 10 f n l = ((Nat.digits 10 n).map Nat.digitChar).reverse ++ l := by
  intro f
  induction f with
  | zero => intro n l hn hf; omega
  | succ f ih =>
    intro n l hn hf
    rw [toDigitsCore_succ, Nat.digits_def' (b := 10) (by norm_num) hn]
    by_cases h10 : n / 10 = 0
    · rw [if_pos h10, h10, Nat.digits_zero]
      simp
    · rw [if_neg h10,
        ih (n / 10) (Nat.digitChar (n % 10) :: l) (Nat.pos_of_ne_zero h10)
          (by have := Nat.div_lt_self hn (by norm_num : 1 < 10); omega)]
      simp

theorem repr_eq_digits (n : Nat) (hn : 0 < n) :
    Nat.repr n = (((Nat.digits 10 n).map Nat.digitChar).reverse).asString := by
  rw [Nat.repr, Nat.toDigits, toDigitsCore_eq_digits (n + 1) n [] hn (Nat.lt_succ_self n)]
  simp

theorem digitChar_inj_below_ten :
    ∀ a ∈ Finset.range 10, ∀ b ∈ Finset.range 10,
      Nat.digitChar a = Nat.digitChar b → a = b := by decide

theorem map_digitChar_inj :
    ∀ l1 l2 : List Nat, (∀ x ∈ l1, x < 10) → (∀ x ∈ l2, x < 10) →
      l1.map Nat.digitChar = l2.map Nat.digitChar → l1 = l2 := by
  intro l1
  induction l1 with
  | nil =>
    intro l2 _ _ h
    cases l2 with
    | nil => rfl
    | cons b t2 => simp at h
  | cons a t ih =>
    intro l2 h1 h2 h
    cases l2 with
    | nil => simp at h
    | cons b t2 =>
      simp only [List.map_cons, List.cons.injEq] at h
      have hab : a = b := by
        apply digitChar_inj_below_ten a _ b _ h.1 <;>
          simp [Finset.mem_range, h1 a (List.mem_cons_self a t), h2 b (List.mem_cons_self b t2)]
      have ht : t = t2 :=
        ih t2 (fun x hx => h1 x (List.mem_cons_of_mem _ hx))
          (fun x hx => h2 x (List.mem_cons_of_mem _ hx)) h.2
      rw [hab, ht]

theorem digits_ten_map_digitChar_inj {m n : Nat}
    (h : (Nat.digits 10 m).map Nat.digitChar = (Nat.digits 10 n).map Nat.digitChar) :
    m = n := by
  have hd : Nat.digits 10 m = Nat.digits 10 n :=
    map_digitChar_inj _ _ (fun x hx => Nat.digits_lt_base (by norm_num) hx)
      (fun x hx => Nat.digits_lt_base (by norm_num) hx) h
  have := congrArg (Nat.ofDigits 10) hd
  rwa [Nat.ofDigits_digits, Nat.ofDigits_digits] at this

theorem nat_repr_injective : Function.Injective Nat.repr := by
  have key : ∀ m n : Nat, 0 < m → 0 < n → Nat.repr m = Nat.repr n → m = n := by
    intro m n hm hn h
    rw [repr_eq_digits m hm, repr_eq_digits n hn] at h
    have hdata := congrArg String.data h
    simp only [List.asString] at hdata
    have hrev := congrArg List.reverse hdata
    simp only [List.reverse_reverse] at hrev
    exact digits_ten_map_digitChar_inj hrev
  have hzero : ∀ n : Nat, 0 < n → Nat.repr n ≠ "0" := by
    intro n hn h
    rw [repr_eq_digits n hn] at h
    have hdata := congrArg String.data h
    simp only [List.asString] at hdata
    have hrev := congrArg List.reverse hdata
    simp only [List.reverse_reverse] at hrev
    have : Nat.digits 10 n = [0] :=
      map_digitChar_inj _ [0] (fun x hx => Nat.digits_lt_base (by norm_num) hx)
        (by simp) (by simpa using hrev)
    have := congrArg (Nat.ofDigits 10) this
    rw [Nat.ofDigits_digits] at this
    simp [Nat.ofDigits] at this
    omega
  intro m n h
  rcases Nat.eq_zero_or_pos m with rfl | hm <;> rcases Nat.eq_zero_or_pos n with rfl | hn
  · rfl
  · exact absurd h.symm (hzero n hn)
  · exact absurd h (hzero m hm)
  · exact key m n hm hn h

/-! ## The save-path loop never lands on an existing name -/

theorem saveCandidate_injective (stem ext : String) :
    Function.Injective (saveCandidate stem ext) := by
  have hlen : ∀ j : Nat, j ≠ 0 → stem ++ ext ≠ stem ++ "_" ++ Nat.repr j ++ ext := by
    intro j _ h
    have := congrArg String.length h
    simp only [String.length_append] at this
    have h1 : ("_" : String).length = 1 := rfl
    omega
  intro i j h
  by_cases hi : i = 0 <;> by_cases hj : j = 0
  · rw [hi, hj]
  · rw [saveCandidate, saveCandidate, if_pos hi, if_neg hj] at h
    exact absurd h (hlen j hj)
  · rw [saveCandidate, saveCandidate, if_neg hi, if_pos hj] at h
    exact absurd h.symm (hlen i hi)
  · rw [saveCandidate, saveCandidate, if_neg hi, if_neg hj] at h
    have hdata := congrArg String.data h
    simp only [String.data_append, List.append_assoc] at hdata
    have h1 := List.append_cancel_left hdata
    have h2 := List.append_cancel_left h1
    have h3 := List.append_cancel_right h2
    have hrepr : Nat.repr i = Nat.repr j := by
      apply String.ext
      exact h3
    exact nat_repr_injective hrepr

theorem findFreeSavePathAux_not_mem (existing : List String) (stem ext : String) :
    ∀ fuel i : Nat, (∃ k < fuel, saveCandidate stem ext (i + k) ∉ existing) →
      findFreeSavePathAux existing stem ext fuel i ∉ existing := by
  intro fuel
  induction fuel with
  | zero =>
    rintro i ⟨k, hk, _⟩
    omega
  | succ fuel ih =>
    rintro i ⟨k, hk, hfree⟩
    rw [findFreeSavePathAux]
    by_cases hmem : saveCandidate stem ext i ∈ existing
    · rw [if_pos hmem]
      apply ih
      cases k with
      | zero => rw [Nat.add_zero] at hfree; exact absurd hmem hfree
      | succ k => exact ⟨k, by omega, by rw [show i + 1 + k = i + (k + 1) by omega]; exact hfree⟩
    · rw [if_neg hmem]
      exact hmem

theorem exists_free_candidate (existing : List String) (stem ext : String) :
    ∃ k < existing.length + 1, saveCandidate stem ext k ∉ existing := by
  by_contra hall
  push_neg at hall
  have hsub : (Finset.range (existing.length + 1)).image (saveCandidate stem ext)
      ⊆ existing.toFinset := by
    intro x hx
    simp only [Finset.mem_image, Finset.mem_range] at hx
    obtain ⟨k, hk, rfl⟩ := hx
    exact List.mem_toFinset.mpr (hall k hk)
  have hcard : existing.length + 1 ≤ existing.toFinset.card := by
    calc existing.length + 1
        = ((Finset.range (existing.length + 1)).image (saveCandidate stem ext)).card := by
          rw [Finset.card_image_of_injective _ (saveCandidate_injective stem ext),
            Finset.card_range]
      _ ≤ existing.toFinset.card := Finset.card_le_card hsub
  have := existing.toFinset_card_le
  omega

theorem findFreeSavePath_not_mem (existing : List String) (stem ext : String) :
    findFreeSavePath existing stem ext ∉ existing := by
  apply findFreeSavePathAux_not_mem
  simpa using exists_free_candidate existing stem ext

/-! ## C4: worker failures are isolated per item -/

/-- C4. For every work item whose download body raises, both `_download`
workers catch the exception, record it in that item's terminal progress
state, leave the shared results list unchanged, and return normally
(their Lean type is a plain pair, so no exception can escape); when the
body succeeds, the single appended entry is the item's own output, so
the shared list receives successful outputs only. -/
theorem c4_download_worker_error_isolation
    (envB : BaseMusicClient.DownloadEnv) (songB : BaseMusicClient.BaseSongInfo)
    (resB : List (BaseMusicClient.BaseSongInfo × String))
    (envT : TIDALMusicClient.DownloadEnv) (songT : TIDALMusicClient.TidalSongInfo)
    (resT : List TIDALMusicClient.DownloadedSong) :
    (∀ e, BaseMusicClient.downloadBody envB songB = Except.error e →
      BaseMusicClient.download_worker envB songB resB =
        (resB, ItemProgress.failed
          ("BaseMusicClient.download >>> " ++ songB.song_name ++ " (Error: " ++ e ++ ")"))) ∧
    (∀ p, BaseMusicClient.downloadBody envB songB = Except.ok p →
      (BaseMusicClient.download_worker envB songB resB).1 = resB ++ [(songB, p)]) ∧
    (∀ e, TIDALMusicClient.downloadBody envT songT = Except.error e →
      TIDALMusicClient.download_worker envT songT resT =
        (resT, ItemProgress.failed
          ("TIDALMusicClient.download >>> " ++ songT.song_name ++ " (Error: " ++ e ++ ")"))) ∧
    (∀ s, TIDALMusicClient.downloadBody envT songT = Except.ok s →
      (TIDALMusicClient.download_worker envT songT resT).1 =
        resT ++ [{ song := songT, save_path := s.save_path, ext := s.final_ext }]) := by
  refine ⟨?_, ?_, ?_, ?_⟩ <;> intro x hx <;>
    simp [BaseMusicClient.download_worker, TIDALMusicClient.download_worker, hx]

theorem c4_witness :
    BaseMusicClient.download_worker ⟨none, []⟩ ⟨"s", "mp3", none⟩ [] =
      ([], ItemProgress.failed
        ("BaseMusicClient.download >>> " ++ "s" ++ " (Error: " ++ "response is None" ++ ")")) ∧
    TIDALMusicClient.download_worker ⟨[], true, true, true, false⟩
        ⟨"t", ".flac", { urls := ["u.flac"] }⟩ [] =
      ([], ItemProgress.failed
        ("TIDALMusicClient.download >>> " ++ "t" ++ " (Error: " ++ "assert check" ++ ")")) := by
  have h := c4_download_worker_error_isolation ⟨none, []⟩ ⟨"s", "mp3", none⟩ []
    ⟨[], true, true, true, false⟩ ⟨"t", ".flac", { urls := ["u.flac"] }⟩ []
  exact ⟨h.1 "response is None" rfl, h.2.2.1 "assert check" rfl⟩

/-! ## C5: the save step never overwrites -/

/-- C5. Whatever file names already exist in the target directory, a
successful download body (TIDAL or base) saves to a name that is not
among them, appending `_1`, `_2`, … as needed; concretely, downloading
the title `track` as flac next to an existing `track.flac` lands on
`track_1.flac`. -/
theorem c5_save_never_overwrites :
    (∀ (env : TIDALMusicClient.DownloadEnv) (song : TIDALMusicClient.TidalSongInfo)
        (s : TIDALMusicClient.SavedTrack),
      TIDALMusicClient.downloadBody env song = Except.ok s →
        s.save_path ∉ env.existingFiles) ∧
    (∀ (env : BaseMusicClient.DownloadEnv) (song : BaseMusicClient.BaseSongInfo)
        (p : String),
      BaseMusicClient.downloadBody env song = Except.ok p → p ∉ env.existingFiles) ∧
    TIDALMusicClient.downloadBody ⟨["track.flac"], true, true, true, true⟩
        ⟨"track", ".flac", { urls := ["u.flac"] }⟩ =
      Except.ok { save_path := "track_1.flac", final_ext := ".flac",
                  content_path := "decrypted.flac" } := by
  refine ⟨?_, ?_, ?_⟩
  · intro env song s h
    rw [TIDALMusicClient.downloadBody] at h
    by_cases hok : env.downloadOk
    · simp only [hok, Bool.not_true, Bool.false_eq_true, if_false, Except.ok.injEq] at h
      subst h
      exact findFreeSavePath_not_mem _ _ _
    · simp only [Bool.not_eq_true] at hok
      simp [hok] at h
  · intro env song p h
    cases hr : env.respStatus with
    | none =>
      simp only [BaseMusicClient.downloadBody, hr] at h
      exact absurd h (by simp)
    | some status =>
      simp only [BaseMusicClient.downloadBody, hr] at h
      by_cases hs : 400 ≤ status
      · rw [if_pos hs] at h
        exact absurd h (by simp)
      · rw [if_neg hs] at h
        simp only [Except.ok.injEq] at h
        subst h
        exact findFreeSavePath_not_mem _ _ _
  · rfl

theorem c5_witness :
    TIDALMusicClient.downloadBody ⟨["track.flac"], true, true, true, true⟩
          ⟨"track", ".flac", { urls := ["u.flac"] }⟩ =
        Except.ok { save_path := "track_1.flac", final_ext := ".flac",
                    content_path := "decrypted.flac" } ∧
      "track_1.flac" ∉ ["track.flac"] := by
  refine ⟨c5_save_never_overwrites.2.2, ?_⟩
  have := c5_save_never_overwrites.1 ⟨["track.flac"], true, true, true, true⟩
    ⟨"track", ".flac", { urls := ["u.flac"] }⟩
    { save_path := "track_1.flac", final_ext := ".flac", content_path := "decrypted.flac" }
    c5_save_never_overwrites.2.2
  exact this

/-! ## C6: the remux decision and its fallbacks -/

/-- C6. A remux is decided as required exactly when the target container
extension is ".flac", the native download extension differs, and the
codec names FLAC content; with the segment download succeeding, the item
never fails regardless of the remux environment; and in both degraded
situations — no backend available, or the remux itself failing — the
body falls back to the native extension and the pre-remux decrypted
bytes. -/
theorem c6_remux_decision_and_fallback :
    (∀ (song_ext download_ext : String) (codec : Option String),
      TIDALMusicClient.remuxRequiredFlag song_ext download_ext codec = true ↔
        (song_ext = ".flac" ∧ download_ext ≠ ".flac" ∧
          strContains (lowerStr (codec.getD "")) "flac" = true)) ∧
    (∀ (env : TIDALMusicClient.DownloadEnv) (song : TIDALMusicClient.TidalSongInfo),
      env.downloadOk = true →
        ∃ s, TIDALMusicClient.downloadBody env song = Except.ok s) ∧
    (∀ (env : TIDALMusicClient.DownloadEnv) (song : TIDALMusicClient.TidalSongInfo),
      env.downloadOk = true →
      env.ffmpegReady = false → env.pyavReady = false →
      TIDALMusicClient.downloadBody env song = Except.ok
        { save_path := findFreeSavePath env.existingFiles song.song_name
            (TIDALMusicClient.guessstreamextension song.download_url),
          final_ext := TIDALMusicClient.guessstreamextension song.download_url,
          content_path := TIDALMusicClient.decryptedScratch
            (TIDALMusicClient.guessstreamextension song.download_url) } ∨
      TIDALMusicClient.remuxRequiredFlag song.ext
        (TIDALMusicClient.guessstreamextension song.download_url)
        song.download_url.codec = false) ∧
    (∀ (env : TIDALMusicClient.DownloadEnv) (song : TIDALMusicClient.TidalSongInfo),
      env.downloadOk = true →
      TIDALMusicClient.remuxRequiredFlag song.ext
        (TIDALMusicClient.guessstreamextension song.download_url)
        song.download_url.codec = true →
      (env.ffmpegReady = true ∨ env.pyavReady = true) → env.remuxWorks = false →
      TIDALMusicClient.downloadBody env song = Except.ok
        { save_path := findFreeSavePath env.existingFiles song.song_name
            (TIDALMusicClient.guessstreamextension song.download_url),
          final_ext := TIDALMusicClient.guessstreamextension song.download_url,
          content_path := TIDALMusicClient.decryptedScratch
            (TIDALMusicClient.guessstreamextension song.download_url) }) := by
  refine ⟨?_, ?_, ?_, ?_⟩
  · intro se de c
    rw [TIDALMusicClient.remuxRequiredFlag]
    by_cases h : se ≠ ".flac" ∨ de = ".flac"
    · rw [if_pos h]
      simp only [Bool.false_eq_true, false_iff]
      rintro ⟨h1, h2, _⟩
      rcases h with h | h
      · exact h h1
      · exact h2 h
    · rw [if_neg h]
      push_neg at h
      simp [h.1, h.2]
  · intro env song hok
    rw [TIDALMusicClient.downloadBody]
    simp [hok]
  · intro env song hok hff hpy
    cases hreq : TIDALMusicClient.remuxRequiredFlag song.ext
        (TIDALMusicClient.guessstreamextension song.download_url)
        song.download_url.codec with
    | false => right; rfl
    | true =>
      left
      rw [TIDALMusicClient.downloadBody]
      simp [hok, hff, hpy, hreq]
  · intro env song hok hreq hback hworks
    rw [TIDALMusicClient.downloadBody]
    have hnb : (!env.ffmpegReady && !env.pyavReady) = false := by
      rcases hback with h | h <;> simp [h]
    simp [hok, hreq, hnb, hworks, TIDALMusicClient.remuxflacstream]

theorem c6_witness :
    TIDALMusicClient.remuxRequiredFlag ".flac" ".mp4" (some "FLAC-in-MP4") = true ∧
    TIDALMusicClient.downloadBody ⟨[], false, false, false, true⟩
        ⟨"t", ".flac", { codec := some "flac", urls := ["u.mp4"] }⟩ =
      Except.ok { save_path := "t.mp4", final_ext := ".mp4",
                  content_path := "decrypted.mp4" } ∧
    TIDALMusicClient.downloadBody ⟨[], true, false, false, true⟩
        ⟨"t", ".flac", { codec := some "flac", urls := ["u.mp4"] }⟩ =
      Except.ok { save_path := "t.mp4", final_ext := ".mp4",
                  content_path := "decrypted.mp4" } := by
  refine ⟨?_, ?_, ?_⟩
  · exact (c6_remux_decision_and_fallback.1 ".flac" ".mp4" (some "FLAC-in-MP4")).mpr
      ⟨rfl, by decide, by decide⟩
  · have h := c6_remux_decision_and_fallback.2.2.1 ⟨[], false, false, false, true⟩
      ⟨"t", ".flac", { codec := some "flac", urls := ["u.mp4"] }⟩ rfl rfl rfl
    rcases h with h | h
    · exact h
    · exact absurd h (by decide)
  · exact c6_remux_decision_and_fallback.2.2.2 ⟨[], true, false, false, true⟩
      ⟨"t", ".flac", { codec := some "flac", urls := ["u.mp4"] }⟩ rfl (by decide)
      (Or.inl rfl) rfl

/-! ## C3: the retry loop of `get` -/

namespace BaseMusicClient

theorem getAux_succ_none (attempts : Nat → Option HttpResp)
    (fuel i : Nat) (resp : Option HttpResp) (h : attempts i = none) :
    getAux attempts (fuel + 1) i resp = getAux attempts fuel (i + 1) resp := by
  rw [getAux, h]

theorem getAux_succ_some (attempts : Nat → Option HttpResp)
    (fuel i : Nat) (resp : Option HttpResp) (r : HttpResp) (h : attempts i = some r) :
    getAux attempts (fuel + 1) i resp =
      if r.status ≠ 200 then getAux attempts fuel (i + 1) (some r) else (some r, i + 1) := by
  rw [getAux, h]

theorem getAux_count_le (attempts : Nat → Option HttpResp) :
    ∀ (fuel i : Nat) (resp : Option HttpResp),
      (getAux attempts fuel i resp).2 ≤ i + fuel := by
  intro fuel
  induction fuel with
  | zero => intro i resp; simp [getAux]
  | succ fuel ih =>
    intro i resp
    cases hatt : attempts i with
    | none =>
      rw [getAux_succ_none attempts fuel i resp hatt]
      have := ih (i + 1) resp
      omega
    | some r =>
      rw [getAux_succ_some attempts fuel i resp r hatt]
      by_cases hr : r.status ≠ 200
      · rw [if_pos hr]
        have := ih (i + 1) (some r)
        omega
      · rw [if_neg hr]
        show i + 1 ≤ i + (fuel + 1)
        omega

theorem getAux_first_success (attempts : Nat → Option HttpResp) :
    ∀ (fuel k i : Nat) (resp : Option HttpResp) (r : HttpResp),
      k < fuel → attempts (i + k) = some r → r.status = 200 →
      (∀ j < k, retryEligible (attempts (i + j)) = true) →
      getAux attempts fuel i resp = (some r, i + k + 1) := by
  intro fuel
  induction fuel with
  | zero => intro k i resp r hk; omega
  | succ fuel ih =>
    intro k i resp r hk hatt hst hel
    cases k with
    | zero =>
      rw [Nat.add_zero] at hatt
      rw [getAux_succ_some attempts fuel i resp r hatt, if_neg (by omega)]
    | succ k =>
      have h0 := hel 0 (Nat.succ_pos k)
      rw [Nat.add_zero] at h0
      cases hatt0 : attempts i with
      | none =>
        rw [getAux_succ_none attempts fuel i resp hatt0,
          ih k (i + 1) resp r (by omega)
            (by rw [show i + 1 + k = i + (k + 1) by omega]; exact hatt) hst
            (fun j hj => by
              rw [show i + 1 + j = i + (j + 1) by omega]
              exact hel (j + 1) (by omega))]
        simp only [Prod.mk.injEq]
        exact ⟨trivial, by omega⟩
      | some r0 =>
        rw [hatt0, retryEligible] at h0
        have hne : r0.status ≠ 200 := by
          intro hh
          rw [hh] at h0
          simp at h0
        rw [getAux_succ_some attempts fuel i resp r0 hatt0, if_pos hne,
          ih k (i + 1) (some r0) r (by omega)
            (by rw [show i + 1 + k = i + (k + 1) by omega]; exact hatt) hst
            (fun j hj => by
              rw [show i + 1 + j = i + (j + 1) by omega]
              exact hel (j + 1) (by omega))]
        simp only [Prod.mk.injEq]
        exact ⟨trivial, by omega⟩

theorem orO_none_right (x : Option HttpResp) : orO x none = x := by
  cases x <;> rfl

theorem orO_orO_some (x y : Option HttpResp) (r : HttpResp) :
    orO (orO x (some r)) y = orO x (some r) := by
  cases x <;> rfl

theorem lastObtainedIn_succ_front (attempts : Nat → Option HttpResp) (i0 : Nat) :
    ∀ k : Nat, lastObtainedIn attempts i0 (k + 1) =
      orO (lastObtainedIn attempts (i0 + 1) k) (attempts i0) := by
  intro k
  induction k with
  | zero =>
    rw [lastObtainedIn, lastObtainedIn, Nat.add_zero]
    cases attempts i0 <;> rfl
  | succ k ih =>
    rw [lastObtainedIn, ih]
    conv_rhs => rw [lastObtainedIn]
    rw [show i0 + (k + 1) = i0 + 1 + k by omega]
    cases attempts (i0 + 1 + k) <;> rfl

theorem getAux_exhaust (attempts : Nat → Option HttpResp) :
    ∀ (fuel i0 : Nat) (resp : Option HttpResp),
      (∀ j < fuel, retryEligible (attempts (i0 + j)) = true) →
      getAux attempts fuel i0 resp =
        (orO (lastObtainedIn attempts i0 fuel) resp, i0 + fuel) := by
  intro fuel
  induction fuel with
  | zero => intro i0 resp _; simp [getAux, lastObtainedIn, orO]
  | succ fuel ih =>
    intro i0 resp hel
    have h0 := hel 0 (Nat.succ_pos fuel)
    rw [Nat.add_zero] at h0
    have hshift : ∀ j < fuel, retryEligible (attempts (i0 + 1 + j)) = true := by
      intro j hj
      rw [show i0 + 1 + j = i0 + (j + 1) by omega]
      exact hel (j + 1) (by omega)
    rw [lastObtainedIn_succ_front]
    cases hatt0 : attempts i0 with
    | none =>
      rw [getAux_succ_none attempts fuel i0 resp hatt0, ih (i0 + 1) resp hshift,
        orO_none_right]
      simp only [Prod.mk.injEq]
      exact ⟨trivial, by omega⟩
    | some r0 =>
      rw [hatt0, retryEligible] at h0
      have hne : r0.status ≠ 200 := by
        intro hh
        rw [hh] at h0
        simp at h0
      rw [getAux_succ_some attempts fuel i0 resp r0 hatt0, if_pos hne,
        ih (i0 + 1) (some r0) hshift, orO_orO_some]
      simp only [Prod.mk.injEq]
      exact ⟨trivial, by omega⟩

end BaseMusicClient

/-- C3, counterexample to the claimed retry criterion: on the attempt
sequence delivering status 204 and then status 500, the source loop
retries past the 204 response — a 2xx status, so not retry-eligible under
the claim's non-2xx criterion — and ends holding the 500 response after
both attempts, while the loop written from the claim's words accepts the
204 response after a single request. -/
theorem c3_counterexample :
    BaseMusicClient.get 2 (fun i => if i = 0 then some ⟨204⟩ else some ⟨500⟩) =
        (some ⟨500⟩, 2) ∧
      BaseMusicClient.getSpec 2 (fun i => if i = 0 then some ⟨204⟩ else some ⟨500⟩) =
        (some ⟨204⟩, 1) ∧
      BaseMusicClient.get 2 (fun i => if i = 0 then some ⟨204⟩ else some ⟨500⟩) ≠
        BaseMusicClient.getSpec 2 (fun i => if i = 0 then some ⟨204⟩ else some ⟨500⟩) :=
  ⟨rfl, rfl, by decide⟩

/-- C3 (amended). The `get` retry loop makes at most `max_retries`
attempts; any status other than 200 (not: any non-2xx status) or a
transport exception is retry-eligible, and the first response with
status exactly 200 is returned immediately; exhausting the bound yields
the most recent response that was delivered — possibly still failing, or
no response at all when every attempt raised — and never re-raises the
caught exceptions. -/
theorem c3_get_retry_amended (max_retries : Nat) (attempts : Nat → Option BaseMusicClient.HttpResp) :
    (BaseMusicClient.get max_retries attempts).2 ≤ max_retries ∧
    (∀ k r, k < max_retries → attempts k = some r → r.status = 200 →
      (∀ j < k, BaseMusicClient.retryEligible (attempts j) = true) →
      BaseMusicClient.get max_retries attempts = (some r, k + 1)) ∧
    ((∀ i < max_retries, BaseMusicClient.retryEligible (attempts i) = true) →
      BaseMusicClient.get max_retries attempts =
        (BaseMusicClient.lastObtainedIn attempts 0 max_retries, max_retries)) := by
  refine ⟨?_, ?_, ?_⟩
  · have := BaseMusicClient.getAux_count_le attempts max_retries 0 none
    simpa [BaseMusicClient.get] using this
  · intro k r hk hatt hst hel
    have := BaseMusicClient.getAux_first_success attempts max_retries k 0 none r hk
      (by simpa using hatt) hst (fun j hj => by simpa using hel j hj)
    simpa [BaseMusicClient.get] using this
  · intro hall
    have := BaseMusicClient.getAux_exhaust attempts max_retries 0 none
      (fun j hj => by simpa using hall j hj)
    rw [BaseMusicClient.get, this, BaseMusicClient.orO_none_right]
    simp

theorem c3_witness :
    BaseMusicClient.get 3 (fun i => if i = 0 then none else some ⟨200⟩) = (some ⟨200⟩, 2) ∧
      BaseMusicClient.get 2 (fun _ => some ⟨503⟩) = (some ⟨503⟩, 2) := by
  constructor
  · have h := (c3_get_retry_amended 3 (fun i => if i = 0 then none else some ⟨200⟩)).2.1 1
      ⟨200⟩ (by omega) rfl rfl
      (fun j hj => by
        cases j with
        | zero => rfl
        | succ j => exact absurd hj (by omega))
    exact h
  · have h := (c3_get_retry_amended 2 (fun _ => some ⟨503⟩)).2.2 (fun i _ => by decide)
    exact h

/-! ## C7: DASH codec normalization -/

/-- C7, counterexample to "every other codec tag passes through
unchanged": the DASH branch uppercases the tag before the MP4A test, so
the non-MP4A tag `flac` comes out as `FLAC`, not unchanged. -/
theorem c7_counterexample :
    TIDALMusicClient.normalizedashcodec (some "flac") = "FLAC" ∧
      TIDALMusicClient.normalizedashcodec (some "flac") ≠ "flac" :=
  ⟨rfl, by decide⟩

/-- C7 (amended). In DASH manifest parsing, the representation's codec
tag is uppercased (a missing tag becoming the empty string); if the
uppercased tag begins with MP4A — so an MP4-family tag in any letter
case — it is mapped to the generic label AAC, and every other tag passes
through in uppercased form. -/
theorem c7_codec_normalization_amended (codec : Option String) :
    (startsWithStr (upperStr (codec.getD "")) "MP4A" = true →
      TIDALMusicClient.normalizedashcodec codec = "AAC") ∧
    (startsWithStr (upperStr (codec.getD "")) "MP4A" = false →
      TIDALMusicClient.normalizedashcodec codec = upperStr (codec.getD "")) := by
  constructor <;> intro h <;> simp [TIDALMusicClient.normalizedashcodec, h]

theorem c7_witness :
    TIDALMusicClient.normalizedashcodec (some "mp4a.40.2") = "AAC" ∧
      TIDALMusicClient.normalizedashcodec (some "flac") = upperStr "flac" :=
  ⟨(c7_codec_normalization_amended (some "mp4a.40.2")).1 (by decide),
   (c7_codec_normalization_amended (some "flac")).2 (by decide)⟩

/-! ## C9: opaque-URL manifest parsing -/

/-- C9. For every opaque-URL (vnd.tidal.bt) manifest payload: an
undecodable payload raises; a missing or empty urls list raises; when
codecs and a first url are present the parse returns the descriptor
carrying that first url and an encryption key defaulting to the empty
string; parsing succeeds exactly when the payload decodes with a codecs
field and a non-empty urls list; and an absent keyId yields an
unencrypted (empty-key) descriptor. -/
theorem c9_bt_manifest_parsing (tid : Nat) (q mime : String)
    (payload : Option TIDALMusicClient.BtManifest)
    (hmime : strContains mime "vnd.tidal.bt" = true) :
    (payload = none →
      ∃ e, TIDALMusicClient.parsemanifest
        ⟨tid, q, mime, TIDALMusicClient.ManifestPayload.bt payload⟩ = Except.error e) ∧
    (∀ m, payload = some m → (m.urls = none ∨ m.urls = some []) →
      ∃ e, TIDALMusicClient.parsemanifest
        ⟨tid, q, mime, TIDALMusicClient.ManifestPayload.bt payload⟩ = Except.error e) ∧
    (∀ m c u rest, payload = some m → m.codecs = some c → m.urls = some (u :: rest) →
      TIDALMusicClient.parsemanifest
          ⟨tid, q, mime, TIDALMusicClient.ManifestPayload.bt payload⟩ =
        Except.ok (some
          { trackid := tid, soundQuality := q, codec := some c,
            encryptionKey := m.keyId.getD "", url := some u, urls := [u] })) ∧
    ((∃ su, TIDALMusicClient.parsemanifest
        ⟨tid, q, mime, TIDALMusicClient.ManifestPayload.bt payload⟩ =
          Except.ok (some su)) ↔
      ∃ m c u rest, payload = some m ∧ m.codecs = some c ∧ m.urls = some (u :: rest)) ∧
    (∀ m u rest su, payload = some m → m.keyId = none → m.urls = some (u :: rest) →
      TIDALMusicClient.parsemanifest
          ⟨tid, q, mime, TIDALMusicClient.ManifestPayload.bt payload⟩ =
        Except.ok (some su) →
      su.encryptionKey = "") := by
  refine ⟨?_, ?_, ?_, ?_, ?_⟩
  · rintro rfl
    exact ⟨"manifest payload is not a JSON object",
      by simp [TIDALMusicClient.parsemanifest, hmime]⟩
  · rintro m rfl hu
    cases hc : m.codecs with
    | none =>
      exact ⟨"KeyError: codecs", by simp [TIDALMusicClient.parsemanifest, hmime, hc]⟩
    | some c =>
      rcases hu with hu | hu
      · exact ⟨"KeyError: urls", by simp [TIDALMusicClient.parsemanifest, hmime, hc, hu]⟩
      · exact ⟨"IndexError: urls is empty",
          by simp [TIDALMusicClient.parsemanifest, hmime, hc, hu]⟩
  · rintro m c u rest rfl hc hu
    simp [TIDALMusicClient.parsemanifest, hmime, hc, hu]
  · constructor
    · rintro ⟨su, hsu⟩
      cases payload with
      | none => simp [TIDALMusicClient.parsemanifest, hmime] at hsu
      | some m =>
        cases hc : m.codecs with
        | none => simp [TIDALMusicClient.parsemanifest, hmime, hc] at hsu
        | some c =>
          cases hu : m.urls with
          | none => simp [TIDALMusicClient.parsemanifest, hmime, hc, hu] at hsu
          | some l =>
            cases l with
            | nil => simp [TIDALMusicClient.parsemanifest, hmime, hc, hu] at hsu
            | cons u rest => exact ⟨m, c, u, rest, rfl, hc, hu⟩
    · rintro ⟨m, c, u, rest, rfl, hc, hu⟩
      exact ⟨{ trackid := tid, soundQuality := q, codec := some c,
               encryptionKey := m.keyId.getD "", url := some u, urls := [u] },
        by simp [TIDALMusicClient.parsemanifest, hmime, hc, hu]⟩
  · rintro m u rest su rfl hk hu hsu
    cases hc : m.codecs with
    | none => simp [TIDALMusicClient.parsemanifest, hmime, hc] at hsu
    | some c =>
      simp [TIDALMusicClient.parsemanifest, hmime, hc, hu] at hsu
      rw [← hsu, hk]
      rfl

theorem c9_witness :
    (∃ e, TIDALMusicClient.parsemanifest
      ⟨7, "LOSSLESS", "application/vnd.tidal.bt+json",
        TIDALMusicClient.ManifestPayload.bt (some ⟨some "flac", none, some []⟩)⟩ =
        Except.error e) ∧
    TIDALMusicClient.parsemanifest
        ⟨7, "LOSSLESS", "application/vnd.tidal.bt+json",
          TIDALMusicClient.ManifestPayload.bt (some ⟨some "flac", none, some ["u1", "u2"]⟩)⟩ =
      Except.ok (some
        { trackid := 7, soundQuality := "LOSSLESS", codec := some "flac",
          encryptionKey := (none : Option String).getD "", url := some "u1",
          urls := ["u1"] }) := by
  have h := c9_bt_manifest_parsing 7 "LOSSLESS" "application/vnd.tidal.bt+json"
    (some ⟨some "flac", none, some []⟩) (by decide)
  have h2 := c9_bt_manifest_parsing 7 "LOSSLESS" "application/vnd.tidal.bt+json"
    (some ⟨some "flac", none, some ["u1", "u2"]⟩) (by decide)
  exact ⟨h.2.1 _ rfl (Or.inr rfl), h2.2.2.1 _ "flac" "u1" ["u2"] rfl rfl rfl⟩

/-! ## C8: DASH representation selection -/

theorem audioReps_exists_nonempty_iff (m : TIDALMusicClient.Manifest) :
    (m.periods.any (fun p =>
        p.adaptation_sets.any TIDALMusicClient.audioAdaptationHasSegments)) = true ↔
      ∃ r ∈ TIDALMusicClient.audioReps m, r.segments ≠ [] := by
  simp only [TIDALMusicClient.audioAdaptationHasSegments, TIDALMusicClient.audioReps,
    List.any_eq_true, Bool.and_eq_true, beq_iff_eq, List.mem_flatMap, List.mem_filter,
    Bool.not_eq_true', List.isEmpty_eq_false]
  constructor
  · rintro ⟨p, hp, a, ha, hct, r, hr, hseg⟩
    exact ⟨r, ⟨p, hp, a, ⟨ha, by simp [hct]⟩, hr⟩, by simpa using hseg⟩
  · rintro ⟨r, ⟨p, hp, a, ⟨ha, hct⟩, hr⟩, hseg⟩
    exact ⟨p, hp, a, ha, by simpa using hct, r, hr, by simpa using hseg⟩

/-- C8. For a DASH manifest response: when no audio representation
yields any segment URL the parse returns no descriptor (it never returns
a resolved descriptor with empty segment URLs); and any returned
descriptor takes its URL list — non-empty — from the first audio
representation whose segment list/template yields URLs, with that
representation's normalized codec. -/
theorem c8_dash_representation_selection (tid : Nat) (q : String)
    (tree : TIDALMusicClient.Manifest) :
    ((∀ r ∈ TIDALMusicClient.audioReps tree, r.segments = []) →
      TIDALMusicClient.parsemanifest
        ⟨tid, q, "application/dash+xml", TIDALMusicClient.ManifestPayload.dash tree⟩ =
        Except.ok none) ∧
    (∀ su, TIDALMusicClient.parsemanifest
        ⟨tid, q, "application/dash+xml", TIDALMusicClient.ManifestPayload.dash tree⟩ =
          Except.ok (some su) →
      ∃ rep, (TIDALMusicClient.audioReps tree).find? (fun r => !r.segments.isEmpty) =
          some rep ∧
        su.urls = rep.segments ∧ su.urls ≠ [] ∧
        su.codec = some (TIDALMusicClient.normalizedashcodec rep.codec)) := by
  have hbt : strContains "application/dash+xml" "vnd.tidal.bt" = false := by decide
  have hdash : strContains "application/dash+xml" "dash+xml" = true := by decide
  constructor
  · intro hall
    have hpd : TIDALMusicClient.parsempd tree = none := by
      rw [TIDALMusicClient.parsempd, if_neg]
      intro hc
      obtain ⟨r, hr, hne⟩ := (audioReps_exists_nonempty_iff tree).mp hc
      exact hne (hall r hr)
    simp [TIDALMusicClient.parsemanifest, hbt, hdash, hpd]
  · intro su h
    simp only [TIDALMusicClient.parsemanifest, hbt, hdash] at h
    simp only [Bool.false_eq_true, if_false, if_true] at h
    split at h
    · simp at h
    · rename_i manifest hpd
      split at h
      · simp at h
      · rename_i r0 rest haud
        simp only [Except.ok.injEq, Option.some.injEq] at h
        rw [TIDALMusicClient.parsempd] at hpd
        by_cases hc : (tree.periods.any (fun p =>
            p.adaptation_sets.any TIDALMusicClient.audioAdaptationHasSegments)) = true
        case neg => rw [if_neg hc] at hpd; cases hpd
        rw [if_pos hc] at hpd
        cases hpd
        obtain ⟨r, hr, hne⟩ := (audioReps_exists_nonempty_iff tree).mp hc
        have hfind : ((TIDALMusicClient.audioReps tree).find?
            (fun r => !r.segments.isEmpty)).isSome := by
          rw [List.find?_isSome]
          exact ⟨r, hr, by simpa using hne⟩
        obtain ⟨rep, hrep⟩ := Option.isSome_iff_exists.mp hfind
        rw [← haud] at h
        rw [hrep, Option.getD_some] at h
        refine ⟨rep, hrep, ?_, ?_, ?_⟩
        · rw [← h]
        · rw [← h]
          have hpred := List.find?_some hrep
          rw [Bool.not_eq_true', List.isEmpty_eq_false] at hpred
          exact hpred
        · rw [← h]

theorem c8_witness :
    (TIDALMusicClient.parsemanifest
        ⟨3, "HIGH", "application/dash+xml",
          TIDALMusicClient.ManifestPayload.dash ⟨"", []⟩⟩ = Except.ok none) ∧
    ∃ rep,
      (TIDALMusicClient.audioReps
          ⟨"", [⟨"", [⟨some "audio", "",
            [⟨some "r1", none, some "flac", "", none, none⟩,
             ⟨some "r2", none, some "flac", "",
               none, some ⟨none, ["seg1.mp4", "seg2.mp4"]⟩⟩]⟩]⟩]⟩).find?
          (fun r => !r.segments.isEmpty) = some rep ∧
      ∀ su, TIDALMusicClient.parsemanifest
          ⟨3, "HIGH", "application/dash+xml",
            TIDALMusicClient.ManifestPayload.dash
              ⟨"", [⟨"", [⟨some "audio", "",
                [⟨some "r1", none, some "flac", "", none, none⟩,
                 ⟨some "r2", none, some "flac", "",
                   none, some ⟨none, ["seg1.mp4", "seg2.mp4"]⟩⟩]⟩]⟩]⟩⟩ =
            Except.ok (some su) →
        su.urls = rep.segments ∧ su.urls ≠ [] := by
  constructor
  · exact (c8_dash_representation_selection 3 "HIGH" ⟨"", []⟩).1
      (by intro r hr; simp [TIDALMusicClient.audioReps] at hr)
  · refine ⟨⟨some "r2", none, some "flac", "", none, some ⟨none, ["seg1.mp4", "seg2.mp4"]⟩⟩,
      by decide, ?_⟩
    intro su hsu
    obtain ⟨rep, hrep, hurls, hne, _⟩ :=
      (c8_dash_representation_selection 3 "HIGH" _).2 su hsu
    have : rep = ⟨some "r2", none, some "flac", "",
        none, some ⟨none, ["seg1.mp4", "seg2.mp4"]⟩⟩ := by
      have hd : (TIDALMusicClient.audioReps
          ⟨"", [⟨"", [⟨some "audio", "",
            [⟨some "r1", none, some "flac", "", none, none⟩,
             ⟨some "r2", none, some "flac", "",
               none, some ⟨none, ["seg1.mp4", "seg2.mp4"]⟩⟩]⟩]⟩]⟩).find?
          (fun r => !r.segments.isEmpty) =
          some ⟨some "r2", none, some "flac", "",
            none, some ⟨none, ["seg1.mp4", "seg2.mp4"]⟩⟩ := by decide
      rw [hrep] at hd
      exact Option.some.inj hd
    rw [← this]
    exact ⟨hurls, hne⟩

/-! ## C1: quality negotiation -/

namespace TIDALMusicClient

theorem gsft_skip_invalid (env : String → TierOutcome) (name quality : String)
    (rest : List (String × String)) (n : Nat) (h : (env quality).valid = false) :
    getstreamfortrackAux env ((name, quality) :: rest) n =
      getstreamfortrackAux env rest (n + 1) := by
  simp [getstreamfortrackAux, h]

theorem gsft_skip_mime (env : String → TierOutcome) (name quality : String)
    (rest : List (String × String)) (n : Nat) (hv : (env quality).valid = true)
    (h : (!(strContains (env quality).mimeType "vnd.tidal.bt") &&
      !(strContains (env quality).mimeType "dash+xml")) = true) :
    getstreamfortrackAux env ((name, quality) :: rest) n =
      getstreamfortrackAux env rest (n + 1) := by
  simp [getstreamfortrackAux, hv, h]

theorem gsft_skip_parse (env : String → TierOutcome) (name quality : String)
    (rest : List (String × String)) (n : Nat) (hv : (env quality).valid = true)
    (hm : (!(strContains (env quality).mimeType "vnd.tidal.bt") &&
      !(strContains (env quality).mimeType "dash+xml")) = false)
    (hp : (env quality).parsed = none) :
    getstreamfortrackAux env ((name, quality) :: rest) n =
      getstreamfortrackAux env rest (n + 1) := by
  simp [getstreamfortrackAux, hv, hm, hp]

theorem gsft_skip_nourl (env : String → TierOutcome) (name quality : String)
    (rest : List (String × String)) (n : Nat) (su : StreamUrl)
    (hv : (env quality).valid = true)
    (hm : (!(strContains (env quality).mimeType "vnd.tidal.bt") &&
      !(strContains (env quality).mimeType "dash+xml")) = false)
    (hp : (env quality).parsed = some su) (hu : primarystreamurl su = none) :
    getstreamfortrackAux env ((name, quality) :: rest) n =
      getstreamfortrackAux env rest (n + 1) := by
  simp [getstreamfortrackAux, hv, hm, hp, hu]

theorem gsft_skip_probe (env : String → TierOutcome) (name quality : String)
    (rest : List (String × String)) (n : Nat) (su : StreamUrl) (u : String)
    (hv : (env quality).valid = true)
    (hm : (!(strContains (env quality).mimeType "vnd.tidal.bt") &&
      !(strContains (env quality).mimeType "dash+xml")) = false)
    (hp : (env quality).parsed = some su) (hu : primarystreamurl su = some u)
    (hpo : (env quality).probeOk = false) :
    getstreamfortrackAux env ((name, quality) :: rest) n =
      getstreamfortrackAux env rest (n + 1) := by
  simp [getstreamfortrackAux, hv, hm, hp, hu, hpo]

theorem gsft_accept (env : String → TierOutcome) (name quality : String)
    (rest : List (String × String)) (n : Nat) (su : StreamUrl) (u : String)
    (hv : (env quality).valid = true)
    (hm : (!(strContains (env quality).mimeType "vnd.tidal.bt") &&
      !(strContains (env quality).mimeType "dash+xml")) = false)
    (hp : (env quality).parsed = some su) (hu : primarystreamurl su = some u)
    (hpo : (env quality).probeOk = true) :
    getstreamfortrackAux env ((name, quality) :: rest) n =
      { stream := some su, ok := true, reason := "", requests := n + 1 } := by
  simp [getstreamfortrackAux, hv, hm, hp, hu, hpo]

theorem getstreamfortrackAux_sound (env : String → TierOutcome) :
    ∀ (tiers : List (String × String)) (n : Nat) (su : StreamUrl),
      (getstreamfortrackAux env tiers n).stream = some su →
      ∃ q ∈ tiers.map Prod.snd, (env q).probeOk = true ∧ (env q).parsed = some su := by
  intro tiers
  induction tiers with
  | nil => intro n su h; simp [getstreamfortrackAux] at h
  | cons hd rest ih =>
    intro n su h
    obtain ⟨name, quality⟩ := hd
    have hrec : ∀ m, (getstreamfortrackAux env rest m).stream = some su →
        ∃ q ∈ ((name, quality) :: rest).map Prod.snd,
          (env q).probeOk = true ∧ (env q).parsed = some su := by
      intro m hm
      obtain ⟨q, hq, hp1, hp2⟩ := ih m su hm
      exact ⟨q, by simp only [List.map_cons]; exact List.mem_cons_of_mem _ hq, hp1, hp2⟩
    cases hv : (env quality).valid with
    | false =>
      rw [gsft_skip_invalid env name quality rest n hv] at h
      exact hrec _ h
    | true =>
      cases hm : (!(strContains (env quality).mimeType "vnd.tidal.bt") &&
          !(strContains (env quality).mimeType "dash+xml")) with
      | true =>
        rw [gsft_skip_mime env name quality rest n hv hm] at h
        exact hrec _ h
      | false =>
        cases hp : (env quality).parsed with
        | none =>
          rw [gsft_skip_parse env name quality rest n hv hm hp] at h
          exact hrec _ h
        | some su0 =>
          cases hu : primarystreamurl su0 with
          | none =>
            rw [gsft_skip_nourl env name quality rest n su0 hv hm hp hu] at h
            exact hrec _ h
          | some u =>
            cases hpo : (env quality).probeOk with
            | false =>
              rw [gsft_skip_probe env name quality rest n su0 u hv hm hp hu hpo] at h
              exact hrec _ h
            | true =>
              rw [gsft_accept env name quality rest n su0 u hv hm hp hu hpo] at h
              simp only [Option.some.injEq] at h
              exact ⟨quality, by simp, hpo, by rw [hp, h]⟩

theorem getstreamfortrackAux_exhaust (env : String → TierOutcome)
    (hprobe : ∀ q, (env q).probeOk = false) :
    ∀ (tiers : List (String × String)) (n : Nat),
      getstreamfortrackAux env tiers n =
        { stream := none, ok := false, reason := "No playable stream found",
          requests := n + tiers.length } := by
  intro tiers
  induction tiers with
  | nil => intro n; simp [getstreamfortrackAux]
  | cons hd rest ih =>
    intro n
    obtain ⟨name, quality⟩ := hd
    have harith : n + 1 + rest.length = n + ((name, quality) :: rest).length := by
      simp only [List.length_cons]
      omega
    cases hv : (env quality).valid with
    | false => rw [gsft_skip_invalid env name quality rest n hv, ih, harith]
    | true =>
      cases hm : (!(strContains (env quality).mimeType "vnd.tidal.bt") &&
          !(strContains (env quality).mimeType "dash+xml")) with
      | true => rw [gsft_skip_mime env name quality rest n hv hm, ih, harith]
      | false =>
        cases hp : (env quality).parsed with
        | none => rw [gsft_skip_parse env name quality rest n hv hm hp, ih, harith]
        | some su0 =>
          cases hu : primarystreamurl su0 with
          | none => rw [gsft_skip_nourl env name quality rest n su0 hv hm hp hu, ih, harith]
          | some u =>
            rw [gsft_skip_probe env name quality rest n su0 u hv hm hp hu (hprobe quality),
              ih, harith]

end TIDALMusicClient

/-- C1. The quality negotiation tries the fixed descending ladder
HI_RES_LOSSLESS, LOSSLESS, HIGH, LOW; any returned descriptor comes from
a tier whose reachability probe reported ok; on the ladder whose first
tier parses but probes unreachable and whose second tier probes
reachable, it returns the second tier's descriptor after exactly two
playback-info requests; and when every tier's probe fails it exhausts
all four tiers and reports no playable stream. -/
theorem c1_quality_negotiation :
    TIDALMusicClient.qualities.map Prod.snd =
      ["HI_RES_LOSSLESS", "LOSSLESS", "HIGH", "LOW"] ∧
    (∀ (env : String → TIDALMusicClient.TierOutcome) (su : TIDALMusicClient.StreamUrl),
      (TIDALMusicClient.getstreamfortrack env).stream = some su →
      ∃ q ∈ TIDALMusicClient.qualities.map Prod.snd,
        (env q).probeOk = true ∧ (env q).parsed = some su) ∧
    (∀ env : String → TIDALMusicClient.TierOutcome,
      (∀ q, (env q).probeOk = false) →
      TIDALMusicClient.getstreamfortrack env =
        { stream := none, ok := false, reason := "No playable stream found",
          requests := 4 }) ∧
    TIDALMusicClient.getstreamfortrack
        (fun q =>
          if q = "HI_RES_LOSSLESS" then
            { valid := true, mimeType := "application/dash+xml",
              parsed := some { urls := ["a.flac"], url := some "a.flac" },
              probeOk := false }
          else
            { valid := true, mimeType := "application/dash+xml",
              parsed := some { urls := ["b.flac"], url := some "b.flac" },
              probeOk := true }) =
      { stream := some { urls := ["b.flac"], url := some "b.flac" }, ok := true,
        reason := "", requests := 2 } := by
  refine ⟨rfl, ?_, ?_, by decide⟩
  · intro env su h
    exact TIDALMusicClient.getstreamfortrackAux_sound env TIDALMusicClient.qualities 0 su h
  · intro env hprobe
    exact TIDALMusicClient.getstreamfortrackAux_exhaust env hprobe TIDALMusicClient.qualities 0

theorem c1_witness :
    TIDALMusicClient.getstreamfortrack
        (fun _ => { valid := false, mimeType := "", parsed := none, probeOk := false }) =
      { stream := none, ok := false, reason := "No playable stream found",
        requests := 4 } ∧
    ∃ q ∈ TIDALMusicClient.qualities.map Prod.snd,
      ((fun q : String =>
        if q = "HI_RES_LOSSLESS" then
          ({ valid := true, mimeType := "application/dash+xml",
             parsed := some { urls := ["a.flac"], url := some "a.flac" },
             probeOk := false } : TIDALMusicClient.TierOutcome)
        else
          { valid := true, mimeType := "application/dash+xml",
            parsed := some { urls := ["b.flac"], url := some "b.flac" },
            probeOk := true }) q).probeOk = true ∧
      ((fun q : String =>
        if q = "HI_RES_LOSSLESS" then
          ({ valid := true, mimeType := "application/dash+xml",
             parsed := some { urls := ["a.flac"], url := some "a.flac" },
             probeOk := false } : TIDALMusicClient.TierOutcome)
        else
          { valid := true, mimeType := "application/dash+xml",
            parsed := some { urls := ["b.flac"], url := some "b.flac" },
            probeOk := true }) q).parsed =
        some { urls := ["b.flac"], url := some "b.flac" } := by
  constructor
  · exact c1_quality_negotiation.2.2.1 _ (fun q => rfl)
  · exact c1_quality_negotiation.2.1 _ _
      (congrArg TIDALMusicClient.StreamResolution.stream c1_quality_negotiation.2.2.2)

/-! ## C10: artist resolution never yields an empty name -/

namespace BaseMusicClient

theorem resolveArtistLoop_ne_empty :
    ∀ cands : List RawValue, resolveArtistLoop cands ≠ "" := by
  intro cands
  induction cands with
  | nil =>
    rw [resolveArtistLoop]
    decide
  | cons c rest ih =>
    rw [resolveArtistLoop]
    cases hx : extract_name_from_data c with
    | none => exact ih
    | some name =>
      show (if (trimStr (strip_featured_artist name)).data.isEmpty = true then
          resolveArtistLoop rest
        else trimStr (strip_featured_artist name)) ≠ ""
      by_cases hs : (trimStr (strip_featured_artist name)).data.isEmpty = true
      · rw [if_pos hs]
        exact ih
      · rw [if_neg hs]
        intro heq
        rw [heq] at hs
        exact hs rfl

theorem resolveArtistLoop_all_unusable :
    ∀ cands : List RawValue, (∀ c ∈ cands, usableArtist c = false) →
      resolveArtistLoop cands = "Unknown Artist" := by
  intro cands
  induction cands with
  | nil => intro _; rw [resolveArtistLoop]
  | cons c rest ih =>
    intro hall
    have hc := hall c (List.mem_cons_self c rest)
    have hrest := fun x hx => hall x (List.mem_cons_of_mem _ hx)
    rw [resolveArtistLoop]
    cases hx : extract_name_from_data c with
    | none => exact ih hrest
    | some name =>
      rw [usableArtist, hx] at hc
      simp only [Bool.not_eq_false'] at hc
      show (if (trimStr (strip_featured_artist name)).data.isEmpty = true then
          resolveArtistLoop rest
        else trimStr (strip_featured_artist name)) = "Unknown Artist"
      rw [if_pos hc]
      exact ih hrest

theorem legalizestring_ne_empty (s repl : String) (hr : repl ≠ "") :
    legalizestring s repl ≠ "" := by
  rw [legalizestring]
  by_cases h : ((trimStr s).data.isEmpty || upperStr (trimStr s) = "NULL") = true
  · rw [if_pos h]
    exact hr
  · rw [if_neg h]
    intro heq
    apply h
    rw [heq]
    decide

end BaseMusicClient

/-- C10. For every song-info slice, keyword and preferred artist,
`_resolve_artist_name` returns a non-empty string; when no candidate
yields a usable name it returns the literal Unknown Artist; and the
artist path component of every work directory built by
`_constructuniqueworkdir` is non-empty. -/
theorem c10_resolve_artist_nonempty
    (si : BaseMusicClient.ArtistSongInfo) (keyword preferred_artist : String) :
    BaseMusicClient.resolve_artist_name si keyword preferred_artist ≠ "" ∧
    ((∀ c ∈ BaseMusicClient.artistCandidates si keyword preferred_artist,
        BaseMusicClient.usableArtist c = false) →
      BaseMusicClient.resolve_artist_name si keyword preferred_artist =
        "Unknown Artist") ∧
    (BaseMusicClient.constructuniqueworkdir si keyword preferred_artist).artistDir ≠ "" := by
  refine ⟨BaseMusicClient.resolveArtistLoop_ne_empty _,
    fun h => BaseMusicClient.resolveArtistLoop_all_unusable _ h, ?_⟩
  exact BaseMusicClient.legalizestring_ne_empty _ _ (by decide)

theorem c10_witness :
    BaseMusicClient.resolve_artist_name {} "" "" = "Unknown Artist" ∧
      BaseMusicClient.resolve_artist_name {} "" "" ≠ "" ∧
      (BaseMusicClient.constructuniqueworkdir {} "" "").artistDir ≠ "" := by
  have h := c10_resolve_artist_nonempty {} "" ""
  exact ⟨h.2.1 (by decide), h.1, h.2.2⟩

end Musicdl
